import Mathlib

/-!
Shallow embedding of the UEFI text-output console wrapper and its
result/error layer, translated from `src/uefi/src/proto/console/text/output.rs`
and `src/uefi/src/result/error.rs`.

Machine integers are modelled as `Nat`.  A UCS-2 code unit is a `Nat`
below `2 ^ 16`; an input string is modelled as the list of code units its
characters encode to (the source's `ucs2::encode_with` feeds the staged
closure one 16-bit unit per encodable character).  The device's
`output_string` entry point is modelled as always succeeding and is
observed through the list of buffers passed to it, oldest first.
-/

/-- Stack-buffer capacity of the buffered write path (`BUF_SIZE` in the
source); the actual stack array has `BUF_SIZE + 1` slots, the extra one
for the null terminator. -/
def BUF_SIZE : Nat := 128

/-- Code unit of the carriage-return character inserted by the write path. -/
def CR : Nat := 13

/-- Code unit of the line-feed character. -/
def LF : Nat := 10

/-- State of one `write_str` call: the staged code units (`buf[0..i)` in
the source, so `buf.length` is the staging index `i`) and the buffers
passed so far to the device write entry point, oldest first.  Each
recorded buffer includes its trailing null terminator. -/
structure WriteState where
  buf : List Nat
  flushes : List (List Nat)
deriving Repr, DecidableEq

/-- The `flush_buffer` closure: store the terminator after the staged
units, hand `buf[0..=i]` to the device write entry point, and reset the
staging index to 0.  The `CStr16::from_u16_with_nul` conversion it calls
is outside the embedded sources; modelled from the spec, which treats the
flushed buffer as a valid terminated string handed to the device
(`write(text)` pushes a pre-encoded, null-terminated string). -/
def flush_buffer (st : WriteState) : WriteState :=
  { buf := [], flushes := st.flushes ++ [st.buf ++ [0]] }

/-- The `add_char` closure: append one code unit to the staging buffer,
and flush when the staging index reaches `BUF_SIZE`. -/
def add_char (ch : Nat) (st : WriteState) : WriteState :=
  let st2 : WriteState := { st with buf := st.buf ++ [ch] }
  if st2.buf.length = BUF_SIZE then flush_buffer st2 else st2

/-- The `add_ch` closure: translate host line feeds by staging a
carriage-return unit before each `'\n'`, then stage the unit itself. -/
def add_ch (ch : Nat) (st : WriteState) : WriteState :=
  if ch = LF then add_char ch (add_char CR st) else add_char ch st

/-- Processing of the whole input by `ucs2::encode_with(s, add_ch)`:
feed every code unit, in order, through `add_ch`. -/
def encode_all (st : WriteState) (s : List Nat) : WriteState :=
  s.foldl (fun st c => add_ch c st) st

/-- The body of `fmt::Write::write_str` for `Output`: start from an empty
staging buffer, translate and stage the whole input, then flush the
remainder of the buffer unconditionally. -/
def write_str (s : List Nat) : WriteState :=
  flush_buffer (encode_all ⟨[], []⟩ s)

/-- Spec-side description of line-feed translation, written from the
spec's words for comparison with the code's staged output: each `'\n'`
is immediately preceded by an inserted `'\r'` unit and every other unit
is kept unchanged in order. -/
def lfTranslate (s : List Nat) : List Nat :=
  (s.map fun c => if c = LF then [CR, c] else [c]).flatten

/-- Code units actually staged by a state so far: the payload of every
flush (terminator excluded) followed by the currently staged units. -/
def stagedSeq (st : WriteState) : List Nat :=
  (st.flushes.map fun l => l.dropLast).flatten ++ st.buf

/-- Full flushes of a code-unit stream, `BUF_SIZE` at a time: the list of
complete chunks and the leftover tail shorter than `BUF_SIZE`. -/
def chunk (l : List Nat) : List (List Nat) × List Nat :=
  if h : BUF_SIZE ≤ l.length then
    let r := chunk (l.drop BUF_SIZE)
    (l.take BUF_SIZE :: r.1, r.2)
  else
    ([], l)
termination_by l.length
decreasing_by
  simp only [List.length_drop, BUF_SIZE] at h ⊢
  omega

/-- Bounds invariant of the write path: the staging index stays strictly
below `BUF_SIZE` between character steps, and every buffer handed to the
device fits in the `BUF_SIZE + 1`-slot stack array. -/
def WriteInv (st : WriteState) : Prop :=
  st.buf.length < BUF_SIZE ∧ ∀ fl ∈ st.flushes, fl.length ≤ BUF_SIZE + 1

/-- The text mode value object yielded by mode enumeration (`OutputMode`
in the source): an index paired with `(columns, rows)` dimensions. -/
structure OutputMode where
  index : Nat
  dims : Nat × Nat
deriving Repr, DecidableEq

/-- Yield sequence of `OutputModeIter::next` starting at index `current`
with bound `max`.  The device's `query_mode` entry point is modelled as a
function `qm` from a mode index to `some (columns, rows)` on success and
`none` on any failure status.  The source recurses into `self.next()`
when `query_mode` fails, so a failing index is skipped. -/
def modesFrom (qm : Nat → Option (Nat × Nat)) (current max : Nat) :
    List OutputMode :=
  if h : current < max then
    match qm current with
    | some dims => ⟨current, dims⟩ :: modesFrom qm (current + 1) max
    | none => modesFrom qm (current + 1) max
  else
    []
termination_by max - current
decreasing_by
  all_goals omega

/-- `Output::modes`: enumerate from index 0 up to the `max_mode` count
read once from the device's auxiliary data. -/
def modes (qm : Nat → Option (Nat × Nat)) (max_mode : Nat) :
    List OutputMode :=
  modesFrom qm 0 max_mode

/-- `Output::set_color`: `assert!(bgc < 8)` aborts on an invalid
background (modelled as `none`, no device call); otherwise exactly one
set-attribute call is issued with the packed attribute value (modelled as
`some attr`). -/
def set_color (foreground background : Nat) : Option Nat :=
  if background < 8 then
    some (((background &&& 0x7) <<< 4) ||| (foreground &&& 0xF))
  else
    none

/-- Success status code.  Modelled from the spec: the numeric `Status`
constants live outside the embedded sources; the spec reserves exactly
one value for success. -/
def SUCCESS : Nat := 0

/-- Status code of the "unknown glyph" warning.  Modelled from the spec:
warnings occupy a low positive range distinct from `SUCCESS`. -/
def WARN_UNKNOWN_GLYPH : Nat := 1

/-- The `Error` type of the result layer: a non-success status code with
a payload. -/
structure Error (Data : Type) where
  status : Nat
  data : Data
deriving Repr, DecidableEq

/-- `Error::new`: asserts that `status` is not `Status::SUCCESS` (the
panic is modelled as `none`) and otherwise builds the error value. -/
def Error.new (status : Nat) (data : Data) : Option (Error Data) :=
  if status = SUCCESS then none else some ⟨status, data⟩

/-- The `Display` implementation for `Error`, which formats with
`"UEFI Error {}: {:?}"`; the status and payload formatters stand for the
`Display` instance of `Status` and the `Debug` instance of `Data`. -/
def errorDisplay (showStatus : Nat → String) (showData : Data → String)
    (e : Error Data) : String :=
  "UEFI Error " ++ showStatus e.status ++ ": " ++ showData e.data

/-- Spec-side description of the `Display` formatting, written from the
spec's words for comparison: failures format as `"Error <code>: <payload>"`. -/
def specErrorDisplay (showStatus : Nat → String) (showData : Data → String)
    (e : Error Data) : String :=
  "Error " ++ showStatus e.status ++ ": " ++ showData e.data

/-- Conversion of a raw status into an outcome.  Modelled from the spec:
the `Status -> Result` conversion lives outside the embedded sources; the
spec encodes a numeric outcome code into a two-variant result, success
versus failure carrying the status. -/
def statusToResult (s : Nat) : Except (Error Unit) Unit :=
  if s = SUCCESS then Except.ok () else Except.error ⟨s, ()⟩

/-- The `handle_warning` combinator of `ResultExt`.  Modelled from the
spec: its definition lives outside the embedded sources; per the spec a
failure outcome is handed to the handler and every success passes
through unchanged. -/
def handle_warning (r : Except (Error Unit) Unit)
    (op : Error Unit → Except (Error Unit) Unit) : Except (Error Unit) Unit :=
  match r with
  | Except.ok u => Except.ok u
  | Except.error e => op e

/-- `Output::output_string_lossy`, parametrised by the status the device
returns from the underlying `output_string` call: the in-source handler
turns the "unknown glyph" warning into success and keeps every other
error unchanged. -/
def output_string_lossy (deviceStatus : Nat) : Except (Error Unit) Unit :=
  handle_warning (statusToResult deviceStatus) fun err =>
    if err.status = WARN_UNKNOWN_GLYPH then Except.ok () else Except.error err

theorem stagedSeq_flush_buffer (st : WriteState) :
    stagedSeq (flush_buffer st) = stagedSeq st := by
  simp [stagedSeq, flush_buffer]

theorem stagedSeq_add_char (c : Nat) (st : WriteState) :
    stagedSeq (add_char c st) = stagedSeq st ++ [c] := by
  simp only [add_char]
  split
  · simp [stagedSeq, flush_buffer]
  · simp [stagedSeq]

theorem stagedSeq_add_ch (c : Nat) (st : WriteState) :
    stagedSeq (add_ch c st) = stagedSeq st ++ (if c = LF then [CR, c] else [c]) := by
  unfold add_ch
  split
  · rw [stagedSeq_add_char, stagedSeq_add_char]; simp
  · rw [stagedSeq_add_char]

theorem stagedSeq_encode_all (s : List Nat) :
    ∀ st : WriteState, stagedSeq (encode_all st s) = stagedSeq st ++ lfTranslate s := by
  induction s with
  | nil => intro st; simp [encode_all, lfTranslate]
  | cons c s ih =>
    intro st
    have h1 : encode_all st (c :: s) = encode_all (add_ch c st) s := rfl
    rw [h1, ih, stagedSeq_add_ch]
    simp [lfTranslate]

theorem flush_buffer_staged (st : WriteState) :
    ((flush_buffer st).flushes.map fun l => l.dropLast).flatten = stagedSeq st := by
  simp [flush_buffer, stagedSeq]

/-- Claim C3: for every input whose characters are all encodable, the
code units staged by `write_str` across all flushes, terminators
excluded, are the input's code units in order with a `'\r'` unit
inserted immediately before each `'\n'`, every other unit unchanged and
in its original relative order. -/
theorem write_str_staged_sequence (s : List Nat) (henc : ∀ c ∈ s, c < 2 ^ 16) :
    ((write_str s).flushes.map fun l => l.dropLast).flatten = lfTranslate s := by
  unfold write_str
  rw [flush_buffer_staged, stagedSeq_encode_all]
  simp [stagedSeq]

theorem write_str_staged_sequence_witness :
    (∀ c ∈ [97, LF, 98], c < 2 ^ 16) ∧
    ((write_str [97, LF, 98]).flushes.map fun l => l.dropLast).flatten
      = lfTranslate [97, LF, 98] ∧
    lfTranslate [97, LF, 98] = [97, CR, LF, 98] :=
  ⟨by decide, write_str_staged_sequence [97, LF, 98] (by decide), by decide⟩

/-- Claim C2: for every input, `write_str` issues one final flush after
the end of the input unconditionally, so when nothing remains staged at
end-of-stream the device write entry point is still called once more
with a zero-length terminated buffer. -/
theorem write_str_always_final_flush (s : List Nat) :
    (write_str s).flushes
      = (encode_all ⟨[], []⟩ s).flushes ++ [(encode_all ⟨[], []⟩ s).buf ++ [0]] ∧
    ((encode_all ⟨[], []⟩ s).buf = [] →
      (write_str s).flushes ≠ [] ∧ (write_str s).flushes.getLast? = some [0]) := by
  refine ⟨rfl, fun h => ⟨?_, ?_⟩⟩
  · unfold write_str flush_buffer
    simp
  · unfold write_str flush_buffer
    rw [h]
    simp [List.getLast?_concat]

theorem write_str_always_final_flush_witness :
    (encode_all ⟨[], []⟩ ([] : List Nat)).buf = [] ∧
    (write_str []).flushes.getLast? = some [0] :=
  ⟨rfl, ((write_str_always_final_flush []).2 rfl).2⟩

theorem writeInv_add_char (c : Nat) (st : WriteState) (h : WriteInv st) :
    WriteInv (add_char c st) := by
  obtain ⟨hb, hf⟩ := h
  simp only [add_char]
  split
  · next heq =>
    refine ⟨by simp [flush_buffer, BUF_SIZE], ?_⟩
    intro fl hfl
    simp only [flush_buffer, List.mem_append, List.mem_singleton] at hfl
    rcases hfl with hfl | hfl
    · exact hf fl hfl
    · subst hfl
      simp only [List.length_append, List.length_cons, List.length_nil] at heq ⊢
      omega
  · next hne =>
    refine ⟨?_, hf⟩
    simp only [List.length_append, List.length_cons, List.length_nil] at hne ⊢
    omega

theorem writeInv_add_ch (c : Nat) (st : WriteState) (h : WriteInv st) :
    WriteInv (add_ch c st) := by
  unfold add_ch
  split
  · exact writeInv_add_char c _ (writeInv_add_char CR st h)
  · exact writeInv_add_char c st h

theorem writeInv_encode_all (s : List Nat) :
    ∀ st : WriteState, WriteInv st → WriteInv (encode_all st s) := by
  induction s with
  | nil => intro st h; exact h
  | cons c s ih =>
    intro st h
    exact ih (add_ch c st) (writeInv_add_ch c st h)

/-- Claim C10: the staging index never exceeds `BUF_SIZE`: an `add_char`
step from a state respecting the strict bound stores at an index below
`BUF_SIZE` and restores the bound (also across the `'\r'` insertion of
`add_ch`), the bound holds after processing any input, and every buffer
handed to the device write entry point, its terminator included, fits in
the `BUF_SIZE + 1`-slot stack array. -/
theorem write_str_in_bounds :
    (∀ (st : WriteState) (c : Nat), st.buf.length < BUF_SIZE →
      st.buf.length < BUF_SIZE + 1 ∧ (add_char c st).buf.length < BUF_SIZE ∧
        (add_ch c st).buf.length < BUF_SIZE) ∧
    (∀ s : List Nat, (encode_all ⟨[], []⟩ s).buf.length < BUF_SIZE) ∧
    (∀ (s : List Nat) (fl : List Nat), fl ∈ (write_str s).flushes →
      fl.length ≤ BUF_SIZE + 1) := by
  have hinit : WriteInv ⟨[], []⟩ := by
    constructor
    · simp [BUF_SIZE]
    · intro fl hfl; simp at hfl
  have hbufc : ∀ (c : Nat) (st : WriteState), st.buf.length < BUF_SIZE →
      (add_char c st).buf.length < BUF_SIZE := by
    intro c st hb
    simp only [add_char]
    split
    · simp [flush_buffer, BUF_SIZE]
    · next hne =>
      simp only [List.length_append, List.length_cons, List.length_nil] at hne ⊢
      omega
  refine ⟨?_, ?_, ?_⟩
  · intro st c hb
    refine ⟨by omega, hbufc c st hb, ?_⟩
    unfold add_ch
    split
    · exact hbufc c _ (hbufc CR st hb)
    · exact hbufc c st hb
  · intro s
    exact (writeInv_encode_all s ⟨[], []⟩ hinit).1
  · intro s fl hfl
    obtain ⟨hb, hf⟩ := writeInv_encode_all s ⟨[], []⟩ hinit
    simp only [write_str, flush_buffer, List.mem_append, List.mem_singleton] at hfl
    rcases hfl with hfl | hfl
    · exact hf fl hfl
    · subst hfl
      simp only [List.length_append, List.length_cons, List.length_nil]
      omega

theorem write_str_in_bounds_witness :
    ((⟨[97], []⟩ : WriteState).buf.length < BUF_SIZE) ∧
    (add_char 98 ⟨[97], []⟩).buf.length < BUF_SIZE ∧
    (add_ch LF ⟨[97], []⟩).buf.length < BUF_SIZE :=
  ⟨by decide,
   (write_str_in_bounds.1 ⟨[97], []⟩ 98 (by decide)).2.1,
   (write_str_in_bounds.1 ⟨[97], []⟩ LF (by decide)).2.2⟩

theorem chunk_small (l : List Nat) (h : l.length < BUF_SIZE) :
    chunk l = ([], l) := by
  rw [chunk]
  simp [Nat.not_le.mpr h]

theorem chunk_full (l : List Nat) (h : BUF_SIZE ≤ l.length) :
    chunk l
      = (l.take BUF_SIZE :: (chunk (l.drop BUF_SIZE)).1,
         (chunk (l.drop BUF_SIZE)).2) := by
  rw [chunk]
  simp [h]

theorem encode_all_no_lf (s : List Nat) :
    ∀ (b : List Nat) (f : List (List Nat)),
    (∀ c ∈ s, c ≠ LF) → b.length < BUF_SIZE →
    encode_all ⟨b, f⟩ s
      = ⟨(chunk (b ++ s)).2, f ++ ((chunk (b ++ s)).1.map fun k => k ++ [0])⟩ := by
  induction s with
  | nil =>
    intro b f _ hb
    simp [encode_all, chunk_small b hb]
  | cons c s ih =>
    intro b f hlf hb
    have hc : c ≠ LF := hlf c (by simp)
    have htail : ∀ x ∈ s, x ≠ LF := fun x hx => hlf x (by simp [hx])
    have h1 : encode_all ⟨b, f⟩ (c :: s) = encode_all (add_ch c ⟨b, f⟩) s := rfl
    have hcons : b ++ c :: s = (b ++ [c]) ++ s := by simp
    rw [h1]
    unfold add_ch
    rw [if_neg hc]
    simp only [add_char]
    by_cases hfull : (b ++ [c]).length = BUF_SIZE
    · rw [if_pos hfull]
      rw [show flush_buffer ⟨b ++ [c], f⟩
            = (⟨[], f ++ [(b ++ [c]) ++ [0]]⟩ : WriteState) from rfl]
      rw [ih [] (f ++ [(b ++ [c]) ++ [0]]) htail (by simp [BUF_SIZE])]
      have hchunk : chunk (b ++ c :: s) = ((b ++ [c]) :: (chunk s).1, (chunk s).2) := by
        have hle : BUF_SIZE ≤ ((b ++ [c]) ++ s).length := by
          have h2 := hfull
          simp only [List.length_append, List.length_cons, List.length_nil] at h2 ⊢
          omega
        rw [hcons, chunk_full ((b ++ [c]) ++ s) hle,
            List.take_left' hfull, List.drop_left' hfull]
      rw [hchunk]
      simp
    · rw [if_neg hfull]
      rw [ih (b ++ [c]) f htail (by simp at hfull ⊢; omega)]
      rw [hcons]

theorem write_str_flushes_of_two_chunks (s : List Nat)
    (hlen : s.length = 2 * BUF_SIZE) (hlf : ∀ c ∈ s, c ≠ LF) :
    (write_str s).flushes
      = [s.take BUF_SIZE ++ [0], s.drop BUF_SIZE ++ [0], [0]] := by
  have hdrop : (s.drop BUF_SIZE).length = BUF_SIZE := by
    simp [List.length_drop, hlen]
    omega
  have hchunk : chunk s = ([s.take BUF_SIZE, s.drop BUF_SIZE], []) := by
    have ht2 : List.take BUF_SIZE (s.drop BUF_SIZE) = s.drop BUF_SIZE :=
      List.take_of_length_le (by omega)
    have hd2 : List.drop BUF_SIZE (s.drop BUF_SIZE) = [] :=
      List.drop_of_length_le (by omega)
    rw [chunk_full s (by omega), chunk_full (s.drop BUF_SIZE) (by omega),
        ht2, hd2, chunk_small [] (by simp [BUF_SIZE])]
  have henc0 : encode_all ⟨[], []⟩ s
      = ⟨(chunk s).2, (chunk s).1.map fun k => k ++ [0]⟩ := by
    rw [encode_all_no_lf s [] [] hlf (by simp [BUF_SIZE])]
    simp
  unfold write_str
  rw [henc0, hchunk]
  simp [flush_buffer]

/-- Claim C1 (counterexample): the input of length `2 * BUF_SIZE` holding
only the code unit 97 (no line feeds, all encodable) makes `write_str`
issue three device write calls, not two: the unconditional final flush
adds a zero-length terminated call after the two full ones. -/
theorem write_str_not_two_calls :
    (write_str (List.replicate (2 * BUF_SIZE) 97)).flushes.length ≠ 2 := by
  rw [write_str_flushes_of_two_chunks (List.replicate (2 * BUF_SIZE) 97)
    (by simp)
    (fun c hc => by rw [List.eq_of_mem_replicate hc]; decide)]
  decide

/-- Claim C1 (amended): for every input of length exactly `2 * BUF_SIZE`
with no `'\n'` and only encodable units, `write_str` issues exactly three
device write calls: the first two each carry `BUF_SIZE` code units plus
one terminator unit, and the final unconditional flush carries only the
terminator. -/
theorem write_str_two_full_chunks (s : List Nat)
    (hlen : s.length = 2 * BUF_SIZE) (hlf : ∀ c ∈ s, c ≠ LF)
    (henc : ∀ c ∈ s, c < 2 ^ 16) :
    (write_str s).flushes
      = [s.take BUF_SIZE ++ [0], s.drop BUF_SIZE ++ [0], [0]] ∧
    (write_str s).flushes.map List.length = [BUF_SIZE + 1, BUF_SIZE + 1, 1] := by
  have hflushes := write_str_flushes_of_two_chunks s hlen hlf
  refine ⟨hflushes, ?_⟩
  rw [hflushes]
  have htake : (s.take BUF_SIZE).length = BUF_SIZE := by
    simp [List.length_take, hlen]
    omega
  have hdrop : (s.drop BUF_SIZE).length = BUF_SIZE := by
    simp [List.length_drop, hlen]
    omega
  simp [htake, hdrop]

theorem write_str_two_full_chunks_witness :
    (write_str (List.replicate (2 * BUF_SIZE) 97)).flushes.map List.length
      = [BUF_SIZE + 1, BUF_SIZE + 1, 1] :=
  (write_str_two_full_chunks (List.replicate (2 * BUF_SIZE) 97)
    (by simp)
    (fun c hc => by rw [List.eq_of_mem_replicate hc]; decide)
    (fun c hc => by rw [List.eq_of_mem_replicate hc]; decide)).2

theorem modesFrom_eq_filterMap (qm : Nat → Option (Nat × Nat)) :
    ∀ (n current max : Nat), max - current = n →
    modesFrom qm current max
      = (List.range' current n).filterMap fun i =>
          (qm i).map fun d => OutputMode.mk i d := by
  intro n
  induction n with
  | zero =>
    intro current max h
    unfold modesFrom
    have hnot : ¬ current < max := by omega
    simp [hnot]
  | succ k ih =>
    intro current max h
    have hlt : current < max := by omega
    rw [List.range'_succ]
    unfold modesFrom
    rw [dif_pos hlt]
    cases hq : qm current with
    | none => simp [hq, ih (current + 1) max (by omega)]
    | some d => simp [hq, ih (current + 1) max (by omega)]

/-- Claim C4: on a device reporting `max_mode = 4` whose query-mode entry
point fails for index 2 and succeeds for indices 0, 1 and 3, the `modes`
enumeration yields exactly 3 mode values with indices 0, 1, 3 in
ascending order and then terminates; in general every failing index is
skipped while the remaining indices below `max_mode` are still visited. -/
theorem modes_skips_failing_index (qm : Nat → Option (Nat × Nat))
    (h0 : (qm 0).isSome) (h1 : (qm 1).isSome) (h2 : qm 2 = none)
    (h3 : (qm 3).isSome) :
    (modes qm 4).map OutputMode.index = [0, 1, 3] ∧
    (modes qm 4).length = 3 ∧
    ∀ max_mode, modes qm max_mode
      = (List.range max_mode).filterMap fun i =>
          (qm i).map fun d => OutputMode.mk i d := by
  have hgen : ∀ m, modes qm m
      = (List.range m).filterMap fun i => (qm i).map fun d => OutputMode.mk i d := by
    intro m
    rw [List.range_eq_range']
    exact modesFrom_eq_filterMap qm m 0 m (by omega)
  obtain ⟨d0, hd0⟩ := Option.isSome_iff_exists.mp h0
  obtain ⟨d1, hd1⟩ := Option.isSome_iff_exists.mp h1
  obtain ⟨d3, hd3⟩ := Option.isSome_iff_exists.mp h3
  have hr : List.range 4 = [0, 1, 2, 3] := rfl
  refine ⟨?_, ?_, hgen⟩ <;>
    simp [hgen 4, hr, List.filterMap_cons, hd0, hd1, h2, hd3]

theorem modes_skips_failing_index_witness :
    (modes (fun i => if i = 2 then none else if i < 4 then some (80, 25) else none)
        4).map OutputMode.index = [0, 1, 3] :=
  (modes_skips_failing_index
    (fun i => if i = 2 then none else if i < 4 then some (80, 25) else none)
    (by decide) (by decide) (by decide) (by decide)).1

/-- Claim C5: for every foreground index below 16 and background index
below 8, `set_color` issues exactly one set-attribute call whose
attribute argument is `((bg &&& 0x7) <<< 4) ||| (fg &&& 0xF)`. -/
theorem set_color_packs_attribute (fg bg : Nat) (hfg : fg < 16) (hbg : bg < 8) :
    set_color fg bg = some (((bg &&& 0x7) <<< 4) ||| (fg &&& 0xF)) := by
  simp [set_color, hbg]

theorem set_color_packs_attribute_witness : set_color 14 3 = some 62 := by
  rw [set_color_packs_attribute 14 3 (by decide) (by decide)]
  decide

/-- Claim C6: for every background index at least 8 (taken from the
16-value color enumeration), `set_color` aborts on the precondition
check before issuing any call through the device capability table. -/
theorem set_color_rejects_bg (fg bg : Nat) (hbg : 8 ≤ bg) (hbg16 : bg < 16) :
    set_color fg bg = none := by
  have hnot : ¬ bg < 8 := by omega
  simp [set_color, hnot]

theorem set_color_rejects_bg_witness : set_color 7 9 = none :=
  set_color_rejects_bg 7 9 (by decide) (by decide)

/-- Claim C7: `Error.new` panics exactly when the status is the success
code, and for every non-success status the constructed error's `status`
accessor returns the given status and `data` returns the given payload. -/
theorem error_new_panics_iff (Data : Type) (status : Nat) (d : Data) :
    (Error.new status d = none ↔ status = SUCCESS) ∧
    (status ≠ SUCCESS →
      ∃ e : Error Data, Error.new status d = some e ∧
        e.status = status ∧ e.data = d) := by
  constructor
  · unfold Error.new
    split <;> simp_all
  · intro h
    refine ⟨⟨status, d⟩, ?_, rfl, rfl⟩
    unfold Error.new
    rw [if_neg h]

theorem error_new_panics_iff_witness :
    ∃ e : Error Nat, Error.new 5 3 = some e ∧ e.status = 5 ∧ e.data = 3 :=
  (error_new_panics_iff Nat 5 3).2 (by decide)

/-- Claim C8 (counterexample): with the status rendered as `"5"` and the
payload as `"3"`, the `Display` implementation produces
`"UEFI Error 5: 3"`, not the `"Error 5: 3"` the spec-side format
describes. -/
theorem error_display_not_spec_format :
    errorDisplay (fun _ => "5") (fun _ => "3") ⟨5, (3 : Nat)⟩
      ≠ specErrorDisplay (fun _ => "5") (fun _ => "3") ⟨5, (3 : Nat)⟩ := by
  decide

/-- Claim C8 (amended): every failure value is `Display`-formatted as
`"UEFI Error <code>: <payload>"`, where the code is the formatted status
and the payload the formatted payload data. -/
theorem error_display_format (Data : Type) (showS : Nat → String)
    (showD : Data → String) (e : Error Data) :
    errorDisplay showS showD e
      = "UEFI Error " ++ showS e.status ++ ": " ++ showD e.data := rfl

/-- Claim C9: `output_string_lossy` returns success when the underlying
`output_string` call reports the "unknown glyph" warning status, and
every other non-success status is propagated unchanged as a failure. -/
theorem output_string_lossy_swallows_glyph_warning (s : Nat) :
    (s = WARN_UNKNOWN_GLYPH → output_string_lossy s = Except.ok ()) ∧
    (s ≠ SUCCESS → s ≠ WARN_UNKNOWN_GLYPH →
      output_string_lossy s = Except.error ⟨s, ()⟩) := by
  constructor
  · intro h
    subst h
    rfl
  · intro h1 h2
    unfold output_string_lossy statusToResult handle_warning
    rw [if_neg h1]
    simp [h2]

theorem output_string_lossy_swallows_glyph_warning_witness :
    output_string_lossy WARN_UNKNOWN_GLYPH = Except.ok () ∧
    output_string_lossy 5 = Except.error ⟨5, ()⟩ :=
  ⟨(output_string_lossy_swallows_glyph_warning WARN_UNKNOWN_GLYPH).1 rfl,
   (output_string_lossy_swallows_glyph_warning 5).2 (by decide) (by decide)⟩
